import Mathlib

/-!
Verification of the multi-task mask/gender/age training script
(`train_cutmix_multiclass.py`) against its natural-language specification.

The script's pure fragments are shallowly embedded below: tensor shapes as
tuples of naturals, logits and losses as rationals, batches as lists, the
epoch-level bookkeeping (best-accuracy tracking, early stopping, checkpoint
events) as explicit state passing, and numpy's float special values (NaN,
infinity) as an explicit inductive type.
-/

namespace MaskTrain

/-- Lines 225 and 255: the section widths passed to torch.split along dim 1. -/
def splitSections : List Nat := [3, 2, 3]

/-- Modelled from the spec: `dataset.num_classes` comes from the external
`dataset.MaskBaseDataset` module, which is not part of the two source files;
the spec (and the source comment on line 148) fix it at 18 joint classes. -/
def num_classes : Nat := 18

/-- torch.split with a list of section sizes requires the sizes to sum to the
extent of the split dimension; otherwise it raises at runtime. -/
def splitWellDefined (width : Nat) : Prop := splitSections.sum = width

instance : DecidablePred splitWellDefined := fun w => by
  unfold splitWellDefined; infer_instance

/-- Line 234 and line 261: the training-branch loss combination. -/
def trainLossCombine (mask_loss gender_loss age_loss : ℚ) : ℚ :=
  mask_loss + gender_loss + 1.5 * age_loss

/-- Line 312: the validation-loop loss combination. -/
def valLossCombine (mask_loss_item gender_loss_item age_loss_item : ℚ) : ℚ :=
  mask_loss_item + gender_loss_item + age_loss_item

/-- C1: the split widths [3, 2, 3] sum to 8, but the model is constructed with
`num_classes` (18) outputs, so splitting the model output into [3, 2, 3] along
dim 1 is NOT well-defined: torch.split raises on the first batch. -/
theorem split_sections_sum_ne_num_classes :
    splitSections.sum = 8 ∧ num_classes = 18 ∧ ¬ splitWellDefined num_classes :=
  ⟨rfl, rfl, by decide⟩

/-- C2 counterexample: with (mask, gender, age) losses (0, 0, 1) the validation
combination yields 1, not the 1.5 the claimed weights (1, 1, 1.5) would give. -/
theorem val_loss_combine_not_age_weighted :
    valLossCombine 0 0 1 = 1 ∧ (1 : ℚ) * 0 + 1 * 0 + 1.5 * 1 = 1.5 ∧ (1 : ℚ) ≠ 1.5 := by
  refine ⟨by norm_num [valLossCombine], by norm_num, by norm_num⟩

/-- C2 amended: both training branches combine the three losses with the fixed,
input-independent weights (1, 1, 1.5), while the validation loop combines them
with the fixed weights (1, 1, 1). -/
theorem loss_combination_weights (m g a : ℚ) :
    trainLossCombine m g a = 1 * m + 1 * g + 1.5 * a ∧
    valLossCombine m g a = 1 * m + 1 * g + 1 * a := by
  unfold trainLossCombine valLossCombine
  constructor <;> ring

/-- Lines 226-228: the plain (non-CutMix) branch computes the three per-task
losses, each from its own logit slice and its own label channel. The criterion
functions and the slice/label types are kept abstract. -/
def plainBranchLosses (criterion1 criterion2 criterion3 : α → β → ℚ)
    (mask_outs gender_outs age_outs : α)
    (mask_labels gender_labels age_labels : β) : ℚ × ℚ × ℚ :=
  (criterion1 mask_outs mask_labels,
   criterion2 gender_outs gender_labels,
   criterion3 age_outs age_labels)

/-- Lines 257-259: the CutMix branch's three per-task losses, each a convex
combination over the pair of label channels `_a` and `_b`. Faithful to the
source: the third component (the age loss) applies `criterion3` to
`gender_outs`, not to `age_outs`. -/
def cutmixBranchLosses (criterion1 criterion2 criterion3 : α → β → ℚ)
    (mask_outs gender_outs age_outs : α)
    (mask_label_a mask_label_b gender_label_a gender_label_b
      age_label_a age_label_b : β) (lam : ℚ) : ℚ × ℚ × ℚ :=
  (criterion1 mask_outs mask_label_a * lam
      + criterion1 mask_outs mask_label_b * (1 - lam),
   criterion2 gender_outs gender_label_a * lam
      + criterion2 gender_outs gender_label_b * (1 - lam),
   criterion3 gender_outs age_label_a * lam
      + criterion3 gender_outs age_label_b * (1 - lam))

/-- C3: in the plain branch each loss does come from its own slice, but in the
CutMix branch the age loss is computed from the gender logit slice: it is
invariant under changing the age slice, and on a concrete input (identity-like
criterion, gender slice value 5, age slice value 7, lam = 1) it returns the
gender slice's value 5 rather than the age slice's 7. -/
theorem cutmix_age_loss_uses_gender_slice :
    (∀ (α β : Type) (c1 c2 c3 : α → β → ℚ) (mo go ao : α) (ml gl al : β),
      (plainBranchLosses c1 c2 c3 mo go ao ml gl al : ℚ × ℚ × ℚ) =
        (c1 mo ml, c2 go gl, c3 ao al)) ∧
    (∀ (α β : Type) (c1 c2 c3 : α → β → ℚ) (mo go ao ao' : α)
        (ma mb ga gb aa ab : β) (lam : ℚ),
      (cutmixBranchLosses c1 c2 c3 mo go ao ma mb ga gb aa ab lam).2.2 =
        (cutmixBranchLosses c1 c2 c3 mo go ao' ma mb ga gb aa ab lam).2.2) ∧
    (cutmixBranchLosses (fun (x : ℚ) (_ : Nat) => x) (fun x _ => x)
        (fun x _ => x) 10 5 7 0 0 0 0 2 2 1).2.2 = 5 ∧ (5 : ℚ) ≠ 7 := by
  refine ⟨?_, ?_, ?_, by norm_num⟩
  · intro α β c1 c2 c3 mo go ao ml gl al
    rfl
  · intro α β c1 c2 c3 mo go ao ao' ma mb ga gb aa ab lam
    rfl
  · norm_num [cutmixBranchLosses]

/-- A 4-dimensional tensor shape: inputs have shape
(size[0], size[1], size[2], size[3]) = (batch, channels, dim-2 extent, dim-3 extent). -/
structure Size4 where
  d0 : Nat
  d1 : Nat
  d2 : Nat
  d3 : Nat

/-- The rectangle returned by `rand_bbox`. -/
structure BBox where
  bbx1 : Nat
  bby1 : Nat
  bbx2 : Nat
  bby2 : Nat
deriving DecidableEq, Repr

/-- Lines 96-113: rand_bbox. As in the source, the local name W is size[2]
and H is size[3]; cut_size = 0; r is the np.random.randint(2) coin flip
(r = 0 or not). -/
def rand_bbox (size : Size4) (r : Nat) : BBox :=
  let W := size.d2
  let H := size.d3
  let cut_size := 0
  if r = 0 then
    { bbx1 := cut_size, bby1 := W / 2, bbx2 := H - cut_size, bby2 := W - cut_size }
  else
    { bbx1 := cut_size, bby1 := cut_size, bbx2 := H - cut_size, bby2 := W / 2 }

/-- Line 252: lam = 1 - ((bbx2-bbx1)*(bby2-bby1) / (size[-1]*size[-2])),
with Python integer arithmetic embedded in ℚ. -/
def lamOf (size : Size4) (r : Nat) : ℚ :=
  let bb := rand_bbox size r
  1 - (((bb.bbx2 : ℚ) - bb.bbx1) * ((bb.bby2 : ℚ) - bb.bby1))
      / ((size.d3 : ℚ) * (size.d2 : ℚ))

/-- C4 counterexample: for the default resize shape (64, 3, 128, 96) and coin
flip r = 0, rand_bbox returns (0, 64, 96, 128), whose bby2 = 128 exceeds the
dim-3 extent B = 96, violating the claimed bby2 ≤ B. -/
theorem rand_bbox_bby2_exceeds_bound :
    rand_bbox ⟨64, 3, 128, 96⟩ 0 = ⟨0, 64, 96, 128⟩ ∧
    ¬ ((rand_bbox ⟨64, 3, 128, 96⟩ 0).bby2 ≤ 96) := by
  constructor <;> decide

/-- 1 - x / y lies in [0, 1] whenever 0 ≤ x ≤ y and 0 < y. -/
lemma one_sub_div_mem_unit (x y : ℚ) (hy : 0 < y) (hx0 : 0 ≤ x) (hxy : x ≤ y) :
    0 ≤ 1 - x / y ∧ 1 - x / y ≤ 1 := by
  constructor
  · have : x / y ≤ 1 := (div_le_one hy).mpr hxy
    linarith
  · have : 0 ≤ x / y := div_nonneg hx0 hy.le
    linarith

/-- C4 amended: for every input shape and coin flip, rand_bbox satisfies
0 ≤ bbx1 ≤ bbx2 ≤ size[3] and 0 ≤ bby1 ≤ bby2 ≤ size[2] — the x bounds are
capped by the dim-3 extent and the y bounds by the dim-2 extent, swapped
relative to the dims they index, so the claimed in-bounds property holds
exactly when the two spatial extents agree — and lam lies in [0, 1]. -/
theorem rand_bbox_swapped_bounds_and_lam (size : Size4) (r : Nat)
    (h2 : 0 < size.d2) (h3 : 0 < size.d3) :
    (rand_bbox size r).bbx1 ≤ (rand_bbox size r).bbx2 ∧
    (rand_bbox size r).bbx2 ≤ size.d3 ∧
    (rand_bbox size r).bby1 ≤ (rand_bbox size r).bby2 ∧
    (rand_bbox size r).bby2 ≤ size.d2 ∧
    0 ≤ lamOf size r ∧ lamOf size r ≤ 1 := by
  have hd2 : (0 : ℚ) < size.d2 := by exact_mod_cast h2
  have hd3 : (0 : ℚ) < size.d3 := by exact_mod_cast h3
  have hcast : ((size.d2 / 2 : Nat) : ℚ) ≤ (size.d2 : ℚ) :=
    Nat.cast_le.mpr (Nat.div_le_self _ _)
  have hcast0 : (0 : ℚ) ≤ ((size.d2 / 2 : Nat) : ℚ) := Nat.cast_nonneg _
  by_cases hr : r = 0
  · simp only [rand_bbox, lamOf, hr, if_pos]
    refine ⟨Nat.zero_le _, Nat.sub_le _ _, ?_, Nat.sub_le _ _, ?_⟩
    · simpa using Nat.div_le_self size.d2 2
    · have hx0 : (0 : ℚ) ≤ ((size.d3 - 0 : Nat) : ℚ)
          * (((size.d2 - 0 : Nat) : ℚ) - ((size.d2 / 2 : Nat) : ℚ)) := by
        apply mul_nonneg (Nat.cast_nonneg _)
        simp only [Nat.sub_zero]
        linarith
      have hxy : ((size.d3 - 0 : Nat) : ℚ)
          * (((size.d2 - 0 : Nat) : ℚ) - ((size.d2 / 2 : Nat) : ℚ))
          ≤ (size.d3 : ℚ) * (size.d2 : ℚ) := by
        simp only [Nat.sub_zero]
        apply mul_le_mul_of_nonneg_left _ (Nat.cast_nonneg _)
        linarith
      have h := one_sub_div_mem_unit _ _ (mul_pos hd3 hd2) hx0 hxy
      simpa using h
  · simp only [rand_bbox, lamOf, hr, if_neg, if_false]
    refine ⟨Nat.zero_le _, Nat.sub_le _ _, Nat.zero_le _, ?_, ?_⟩
    · exact Nat.div_le_self _ _
    · have hx0 : (0 : ℚ) ≤ ((size.d3 - 0 : Nat) : ℚ)
          * (((size.d2 / 2 : Nat) : ℚ) - ((0 : Nat) : ℚ)) := by
        apply mul_nonneg (Nat.cast_nonneg _)
        simp
      have hxy : ((size.d3 - 0 : Nat) : ℚ)
          * (((size.d2 / 2 : Nat) : ℚ) - ((0 : Nat) : ℚ))
          ≤ (size.d3 : ℚ) * (size.d2 : ℚ) := by
        simp only [Nat.sub_zero, Nat.cast_zero, sub_zero]
        apply mul_le_mul_of_nonneg_left hcast (Nat.cast_nonneg _)
      have h := one_sub_div_mem_unit _ _ (mul_pos hd3 hd2) hx0 hxy
      simpa using h

/-- C4 witness: the amended bounds and lam ∈ [0, 1] at the concrete default
shape (64, 3, 128, 96) with coin flip r = 1. -/
theorem rand_bbox_swapped_bounds_and_lam_witness :
    (rand_bbox ⟨64, 3, 128, 96⟩ 1).bbx1 ≤ (rand_bbox ⟨64, 3, 128, 96⟩ 1).bbx2 ∧
    (rand_bbox ⟨64, 3, 128, 96⟩ 1).bbx2 ≤ 96 ∧
    (rand_bbox ⟨64, 3, 128, 96⟩ 1).bby1 ≤ (rand_bbox ⟨64, 3, 128, 96⟩ 1).bby2 ∧
    (rand_bbox ⟨64, 3, 128, 96⟩ 1).bby2 ≤ 128 ∧
    0 ≤ lamOf ⟨64, 3, 128, 96⟩ 1 ∧ lamOf ⟨64, 3, 128, 96⟩ 1 ≤ 1 :=
  rand_bbox_swapped_bounds_and_lam ⟨64, 3, 128, 96⟩ 1 (by decide) (by decide)

/-- A Python slice a:b on an axis of extent n selects indices [min a n, min b n). -/
def sliceLen (a b n : Nat) : Nat := min b n - min a n

/-- Line 251: the number of pixels overwritten per image and channel by
inputs[:, :, bbx1:bbx2, bby1:bby2], with Python slice clamping on the
extents of dims 2 and 3. -/
def overwrittenArea (size : Size4) (r : Nat) : Nat :=
  let bb := rand_bbox size r
  sliceLen bb.bbx1 bb.bbx2 size.d2 * sliceLen bb.bby1 bb.bby2 size.d3

/-- C5 counterexample: at the default resize shape (64, 3, 128, 96) with coin
flip r = 0 the overwritten region has 3072 pixels, while half the image area
is 6144, so the region does not cover one half of the image. -/
theorem overwritten_area_not_half :
    overwrittenArea ⟨64, 3, 128, 96⟩ 0 = 3072 ∧ 128 * 96 = 12288 ∧
    2 * 3072 ≠ 12288 := by
  refine ⟨by decide, by decide, by decide⟩

/-- C5 amended: the overwritten region is a single axis-aligned rectangle, and
whenever the two spatial extents are equal and even it covers exactly half of
the image area for every coin flip; the bisection does not hold for every
shape and flip, failing at the default resize (128, 96) with r = 0. -/
theorem overwritten_area_half_of_even_square (size : Size4) (r : Nat)
    (hsq : size.d2 = size.d3) (heven : size.d2 % 2 = 0) :
    2 * overwrittenArea size r = size.d2 * size.d3 := by
  obtain ⟨d0, d1, d2, d3⟩ := size
  simp only at hsq heven
  subst hsq
  have hdvd : 2 ∣ d2 := Nat.dvd_of_mod_eq_zero heven
  have hhalf : 2 * (d2 / 2) = d2 := Nat.mul_div_cancel' hdvd
  have hsub : d2 - d2 / 2 = d2 / 2 := by omega
  have e1 : min d2 d2 = d2 := Nat.min_self d2
  have e2 : min (d2 / 2) d2 = d2 / 2 := Nat.min_eq_left (Nat.div_le_self _ _)
  have e3 : min 0 d2 = 0 := Nat.min_eq_left (Nat.zero_le _)
  by_cases hr : r = 0
  · simp only [overwrittenArea, rand_bbox, sliceLen, hr, if_pos, Nat.sub_zero,
      e1, e2, e3]
    rw [hsub, Nat.mul_left_comm, hhalf]
  · simp only [overwrittenArea, rand_bbox, sliceLen, hr, if_neg, if_false,
      Nat.sub_zero, e1, e2, e3]
    rw [Nat.mul_left_comm, hhalf]

/-- C5 witness: on an even square 4x4 image with coin flip r = 0 the
overwritten region covers exactly half of the 16 pixels. -/
theorem overwritten_area_half_of_even_square_witness :
    2 * overwrittenArea ⟨1, 3, 4, 4⟩ 0 = 4 * 4 :=
  overwritten_area_half_of_even_square ⟨1, 3, 4, 4⟩ 0 (by decide) (by decide)

/-- The epoch-level model-selection state: the recorded best joint validation
accuracy (line 186) and the no-improvement counter (line 183). -/
structure SelState where
  best_val_acc : ℚ
  counter : Nat
deriving DecidableEq, Repr

/-- Lines 183 and 186: counter = 0 and best_val_acc = 0 at the start of a run. -/
def initSelState : SelState := ⟨0, 0⟩

/-- Line 184: patience = 5. -/
def patience : Nat := 5

/-- Lines 349-358: the per-epoch checkpoint decision. The result is
((saveBest, saveLast), new state): best.pth is written exactly when
val_acc > best_val_acc, resetting the counter; otherwise the counter
increments; last.pth is written unconditionally afterwards. -/
def checkpointStep (st : SelState) (val_acc : ℚ) : (Bool × Bool) × SelState :=
  if st.best_val_acc < val_acc then
    ((true, true), ⟨val_acc, 0⟩)
  else
    ((false, true), ⟨st.best_val_acc, st.counter + 1⟩)

/-- The selection state after the checkpoint logic of the first k epochs,
given the sequence of per-epoch joint validation accuracies. -/
def stateAfter (st : SelState) (accs : List ℚ) (k : Nat) : SelState :=
  (accs.take k).foldl (fun s v => (checkpointStep s v).2) st

lemma stateAfter_zero (st : SelState) (accs : List ℚ) : stateAfter st accs 0 = st :=
  rfl

lemma stateAfter_cons (st : SelState) (v : ℚ) (rest : List ℚ) (k : Nat) :
    stateAfter st (v :: rest) (k + 1) = stateAfter (checkpointStep st v).2 rest k := by
  simp [stateAfter, List.take_succ_cons, List.foldl_cons]

/-- The recorded best accuracy after folding the checkpoint logic is the
running maximum of the initial best and the accuracies seen. -/
lemma bestAfter_eq_foldl_max (st : SelState) (l : List ℚ) :
    (l.foldl (fun s v => (checkpointStep s v).2) st).best_val_acc =
      l.foldl max st.best_val_acc := by
  induction l generalizing st with
  | nil => rfl
  | cons v rest ih =>
    simp only [List.foldl_cons]
    rw [ih]
    have hstep : ((checkpointStep st v).2).best_val_acc = max st.best_val_acc v := by
      by_cases h : st.best_val_acc < v
      · simp [checkpointStep, h, max_eq_right h.le]
      · simp [checkpointStep, h, max_eq_left (not_lt.mp h)]
    rw [hstep]

/-- C6: in every epoch, best.pth is saved iff the epoch's joint validation
accuracy strictly exceeds the best recorded so far (the running maximum of the
initial 0 and all earlier accuracies); saving resets the counter to 0 and
records the new best; otherwise the recorded best is kept and the counter
increments; and last.pth is saved unconditionally every epoch. -/
theorem best_checkpoint_policy (accs : List ℚ) (i : Nat) (h : i < accs.length) :
    ((checkpointStep (stateAfter initSelState accs i) (accs.get ⟨i, h⟩)).1.1 = true
      ↔ (accs.take i).foldl max 0 < accs.get ⟨i, h⟩) ∧
    (checkpointStep (stateAfter initSelState accs i) (accs.get ⟨i, h⟩)).1.2 = true ∧
    (∀ st v, st.best_val_acc < v → (checkpointStep st v).2 = ⟨v, 0⟩) ∧
    (∀ st v, ¬ st.best_val_acc < v →
      (checkpointStep st v).2 = ⟨st.best_val_acc, st.counter + 1⟩) := by
  have hbest : (stateAfter initSelState accs i).best_val_acc =
      (accs.take i).foldl max 0 := by
    have := bestAfter_eq_foldl_max initSelState (accs.take i)
    simpa [stateAfter, initSelState] using this
  refine ⟨?_, ?_, ?_, ?_⟩
  · rw [← hbest]
    unfold checkpointStep
    split
    · rename_i hc
      simpa using hc
    · rename_i hc
      simpa using hc
  · unfold checkpointStep
    split <;> rfl
  · intro st v hv
    simp [checkpointStep, hv]
  · intro st v hv
    simp [checkpointStep, hv]

/-- C6 witness: with accuracy sequence [3/4] at epoch 0, the save-best decision
agrees with the strict comparison against the running best. -/
theorem best_checkpoint_policy_witness :
    (0 < ([(3 : ℚ)/4]).length) ∧
    ((checkpointStep (stateAfter initSelState [(3 : ℚ)/4] 0)
        (([(3 : ℚ)/4]).get ⟨0, by simp⟩)).1.1 = true
      ↔ (([(3 : ℚ)/4]).take 0).foldl max 0 < ([(3 : ℚ)/4]).get ⟨0, by simp⟩) :=
  ⟨by simp, (best_checkpoint_policy [(3 : ℚ)/4] 0 (by simp)).1⟩

/-- Lines 209-380 restricted to the early-stopping skeleton: each epoch runs
the checkpoint bookkeeping and then breaks iff counter > patience (line 378).
The result is the number of epochs actually executed, the epoch budget being
the length of the accuracy sequence. -/
def epochsRun (st : SelState) : List ℚ → Nat
  | [] => 0
  | v :: rest =>
    let st' := (checkpointStep st v).2
    if patience < st'.counter then 1 else 1 + epochsRun st' rest

/-- The early-stopping run, from any starting state: it never exceeds the
epoch budget, it never breaks at the end of an epoch whose counter is within
the patience, and if it stops early then the counter after its final epoch
exceeds the patience. -/
lemma epochsRun_spec (st : SelState) (accs : List ℚ) :
    epochsRun st accs ≤ accs.length ∧
    (∀ j, j + 1 < epochsRun st accs →
      (stateAfter st accs (j + 1)).counter ≤ patience) ∧
    (epochsRun st accs < accs.length →
      patience < (stateAfter st accs (epochsRun st accs)).counter) := by
  induction accs generalizing st with
  | nil => simp [epochsRun]
  | cons v rest ih =>
    by_cases hb : patience < ((checkpointStep st v).2).counter
    · refine ⟨?_, ?_, ?_⟩
      · simp only [epochsRun, hb, if_pos, List.length_cons]
        omega
      · intro j hj
        simp only [epochsRun, hb, if_pos] at hj
        omega
      · intro _
        simp only [epochsRun, hb, if_pos]
        rw [stateAfter_cons, stateAfter_zero]
        exact hb
    · obtain ⟨ih1, ih2, ih3⟩ := ih (checkpointStep st v).2
      refine ⟨?_, ?_, ?_⟩
      · simp only [epochsRun, hb, if_neg, if_false, List.length_cons]
        omega
      · intro j hj
        simp only [epochsRun, hb, if_neg, if_false] at hj
        match j with
        | 0 =>
          rw [stateAfter_cons, stateAfter_zero]
          exact not_lt.mp hb
        | j + 1 =>
          rw [stateAfter_cons]
          exact ih2 j (by omega)
      · intro hlt
        simp only [epochsRun, hb, if_neg, if_false, List.length_cons] at hlt ⊢
        rw [Nat.add_comm 1, stateAfter_cons]
        exact ih3 (by omega)

/-- C7: starting from the initial state, training never stops early at the end
of an epoch whose no-improvement counter is still at most the patience (5),
runs at most the configured number of epochs, and whenever it stops before
exhausting the budget, the counter at the end of its final executed epoch
strictly exceeds the patience. -/
theorem early_stopping_exact (accs : List ℚ) :
    epochsRun initSelState accs ≤ accs.length ∧
    (∀ j, j + 1 < epochsRun initSelState accs →
      (stateAfter initSelState accs (j + 1)).counter ≤ patience) ∧
    (epochsRun initSelState accs < accs.length →
      patience < (stateAfter initSelState accs (epochsRun initSelState accs)).counter) :=
  epochsRun_spec initSelState accs

/-- C7 witness: with 8 epochs of constant accuracy 0 the run executes 6 epochs
and the counter after the sixth epoch exceeds the patience. -/
theorem early_stopping_exact_witness :
    epochsRun initSelState (List.replicate 8 (0 : ℚ)) <
      (List.replicate 8 (0 : ℚ)).length ∧
    patience < (stateAfter initSelState (List.replicate 8 (0 : ℚ))
      (epochsRun initSelState (List.replicate 8 (0 : ℚ)))).counter :=
  ⟨by decide, (early_stopping_exact (List.replicate 8 (0 : ℚ))).2.2 (by decide)⟩

/-- Lines 174-181, 318-325 and 344: the validation DataLoader is built with
drop_last=True, so it yields only the ⌊n / b⌋ full batches, i.e. the first
⌊n / b⌋ * b samples of the split in loader order; the reported joint accuracy
sums the per-batch counts of samples whose joint comparison succeeded over the
batches actually yielded and divides by the split size. `correct` lists each
validation sample's joint-comparison outcome in loader order and `b` is
valid_batch_size. -/
def valAccReported (b : Nat) (correct : List Bool) : ℚ :=
  ((correct.take (correct.length / b * b)).count true : ℚ) / (correct.length : ℚ)

/-- The accuracy the claim describes: the number of correct joint predictions
over the whole validation split, divided by the split size. -/
def valAccClaimed (correct : List Bool) : ℚ :=
  (correct.count true : ℚ) / (correct.length : ℚ)

/-- C8 counterexample: a 100-sample validation split with 80 correct joint
predictions and the default valid_batch_size 1000 reports accuracy 0 — the
single partial batch is dropped — while the claim demands 0.80. -/
theorem val_acc_drop_last_counterexample :
    valAccReported 1000 (List.replicate 80 true ++ List.replicate 20 false) = 0 ∧
    valAccClaimed (List.replicate 80 true ++ List.replicate 20 false) = 4/5 ∧
    (0 : ℚ) ≠ 4/5 := by
  have hlen : (List.replicate 80 true ++ List.replicate 20 false).length = 100 := by
    simp
  have hcount : (List.replicate 80 true ++ List.replicate 20 false).count true = 80 := by
    simp [List.count_append, List.count_replicate]
  refine ⟨?_, ?_, by norm_num⟩
  · unfold valAccReported
    rw [hlen]
    have h0 : (100 : Nat) / 1000 * 1000 = 0 := by decide
    rw [h0, List.take_zero]
    simp
  · unfold valAccClaimed
    rw [hlen, hcount]
    norm_num

/-- C8 amended: the reported joint validation accuracy counts correct joint
comparisons only among the first ⌊n / b⌋ * b samples kept by drop_last, over
the split size n; it equals the claimed all-samples accuracy whenever
valid_batch_size divides the split size (so in the 100-sample scenario only
for such batch sizes, not for the default 1000). -/
theorem val_acc_reported_eq_claimed_of_dvd (b : Nat) (correct : List Bool)
    (hdvd : b ∣ correct.length) :
    valAccReported b correct = valAccClaimed correct := by
  unfold valAccReported valAccClaimed
  rw [Nat.div_mul_cancel hdvd, List.take_length]

/-- C8 witness: with batch size 50 dividing the 100-sample split, the reported
accuracy agrees with the all-samples accuracy. -/
theorem val_acc_reported_eq_claimed_of_dvd_witness :
    50 ∣ (List.replicate 80 true ++ List.replicate 20 false : List Bool).length ∧
    valAccReported 50 (List.replicate 80 true ++ List.replicate 20 false) =
      valAccClaimed (List.replicate 80 true ++ List.replicate 20 false) :=
  ⟨by decide, val_acc_reported_eq_claimed_of_dvd 50 _ (by decide)⟩

/-- torch.argmax along dim 1 for one sample's logit vector: an index of a
maximal logit (0 for the empty vector). -/
def argmaxIdx (l : List ℚ) : Nat := ((l.argmax id).map l.indexOf).getD 0

/-- Modelled from the spec: `dataset.encode_multi_class`, the fixed bijective
encoding of (mask, gender, age) sub-labels into one of the 18 joint classes;
the dataset module is external to the two source files. Applied elementwise
to a batch of label vectors. -/
def encode_multi_class (mask gender age : List Nat) : List Nat :=
  List.zipWith3 (fun m g a => m * 6 + g * 3 + a) mask gender age

/-- The value of ((x == y).sum().item()) on two equal-length integer tensors:
the number of positions where they agree. -/
def eqCount (xs ys : List Nat) : Nat :=
  ((xs.zip ys).filter fun p => p.1 == p.2).length

/-- The values of the variables mask_outs, gender_outs, age_outs: per-sample
logit slices, last assigned by the training loop (lines 225 and 255). -/
structure StaleOuts where
  mask_outs : List (List ℚ)
  gender_outs : List (List ℚ)
  age_outs : List (List ℚ)
deriving DecidableEq, Repr

/-- The per-batch quantities collected by the validation loop
(lines 309-323). -/
structure ValBatchMetrics where
  mask_loss_item : ℚ
  gender_loss_item : ℚ
  age_loss_item : ℚ
  loss_item : ℚ
  mask_val_acc : Nat
  gender_val_acc : Nat
  age_val_acc : Nat
  acc_item : Nat
deriving DecidableEq, Repr

/-- Lines 299-323, one validation batch: the forward-pass result `outs`
(line 307) is passed in as an argument, and every metric is computed from the
variables mask_outs, gender_outs, age_outs — the `stale` slices — exactly as
in the source, which never splits or otherwise reads `outs`. -/
def valBatchMetrics
    (criterion1 criterion2 criterion3 : List (List ℚ) → List Nat → ℚ)
    (outs : List (List ℚ)) (stale : StaleOuts)
    (mask_labels gender_labels age_labels : List Nat) : ValBatchMetrics :=
  let mask_loss_item := criterion1 stale.mask_outs mask_labels
  let gender_loss_item := criterion2 stale.gender_outs gender_labels
  let age_loss_item := criterion3 stale.age_outs age_labels
  let loss_item := mask_loss_item + gender_loss_item + age_loss_item
  let mask_preds := stale.mask_outs.map argmaxIdx
  let gender_preds := stale.gender_outs.map argmaxIdx
  let age_preds := stale.age_outs.map argmaxIdx
  let preds := encode_multi_class mask_preds gender_preds age_preds
  let labels := encode_multi_class mask_labels gender_labels age_labels
  { mask_loss_item := mask_loss_item
    gender_loss_item := gender_loss_item
    age_loss_item := age_loss_item
    loss_item := loss_item
    mask_val_acc := eqCount mask_labels mask_preds
    gender_val_acc := eqCount gender_labels gender_preds
    age_val_acc := eqCount age_labels age_preds
    acc_item := eqCount labels preds }

/-- Lines 215-266: each training batch reassigns (mask_outs, gender_outs,
age_outs) to the split of that batch's forward output, so after the training
loop the variables hold the split of the last training batch's output. -/
def staleAfterTrainLoop (split3 : α → StaleOuts) (init : StaleOuts)
    (trainOuts : List α) : StaleOuts :=
  trainOuts.foldl (fun _ o => split3 o) init

/-- C9: every per-batch validation metric is independent of the validation
forward-pass output; the metrics do depend on the stale slices (changing only
the stale mask slice flips the joint-accuracy item); and the stale slices
after the training loop are those of the last training batch. -/
theorem val_metrics_ignore_forward_pass :
    (∀ (c1 c2 c3 : List (List ℚ) → List Nat → ℚ) (outs outs' : List (List ℚ))
        (stale : StaleOuts) (ml gl al : List Nat),
      valBatchMetrics c1 c2 c3 outs stale ml gl al =
        valBatchMetrics c1 c2 c3 outs' stale ml gl al) ∧
    (valBatchMetrics (fun _ _ => 0) (fun _ _ => 0) (fun _ _ => 0) []
        ⟨[[1, 0]], [[1, 0]], [[1, 0]]⟩ [0] [0] [0]).acc_item = 1 ∧
    (valBatchMetrics (fun _ _ => 0) (fun _ _ => 0) (fun _ _ => 0) []
        ⟨[[0, 1]], [[1, 0]], [[1, 0]]⟩ [0] [0] [0]).acc_item = 0 ∧
    (∀ (α : Type) (split3 : α → StaleOuts) (init : StaleOuts) (l : List α)
        (h : l ≠ []),
      staleAfterTrainLoop split3 init l = split3 (l.getLast h)) := by
  refine ⟨?_, by decide, by decide, ?_⟩
  · intro c1 c2 c3 outs outs' stale ml gl al
    rfl
  · intro α split3 init l
    induction l generalizing init with
    | nil => intro h; exact absurd rfl h
    | cons a rest ih =>
      intro h
      cases rest with
      | nil => rfl
      | cons b t =>
        rw [staleAfterTrainLoop, List.foldl_cons]
        have := ih (split3 a) (by simp)
        rw [staleAfterTrainLoop] at this
        rw [this]
        exact congrArg split3 (List.getLast_cons (by simp)).symm

/-- C9 witness: a one-batch training loop leaves the stale slices equal to the
split of its only (hence last) batch. -/
theorem val_metrics_ignore_forward_pass_witness :
    ([(⟨[[1]], [[2]], [[3]]⟩ : StaleOuts)] : List StaleOuts) ≠ [] ∧
    staleAfterTrainLoop (fun o : StaleOuts => o) ⟨[], [], []⟩
      [(⟨[[1]], [[2]], [[3]]⟩ : StaleOuts)] = ⟨[[1]], [[2]], [[3]]⟩ :=
  ⟨by simp, val_metrics_ignore_forward_pass.2.2.2 StaleOuts (fun o => o)
    ⟨[], [], []⟩ [⟨[[1]], [[2]], [[3]]⟩] (by simp)⟩

/-- The numpy float values relevant to the loss bookkeeping: NaN, +infinity,
or a finite value. -/
inductive NpVal
  | nan : NpVal
  | inf : NpVal
  | fin : ℚ → NpVal
deriving DecidableEq, Repr

/-- IEEE-754 comparison x < y: every comparison with NaN is false and
+infinity is below nothing. -/
def npLt : NpVal → NpVal → Bool
  | .nan, _ => false
  | _, .nan => false
  | .inf, _ => false
  | .fin _, .inf => true
  | .fin a, .fin b => decide (a < b)

/-- np.mean: NaN on an empty array, otherwise the arithmetic mean. -/
def npMean (l : List ℚ) : NpVal :=
  if l.isEmpty then .nan else .fin (l.sum / l.length)

/-- Lines 287-288: the two loss accumulators of the validation loop, both
starting empty. -/
structure ValLossLists where
  val_loss : List ℚ
  val_loss_items : List ℚ
deriving DecidableEq, Repr

def valLossListsInit : ValLossLists := ⟨[], []⟩

/-- Lines 299-333 restricted to the two loss lists: each validation batch
appends its loss_item to val_loss_items (line 324); nothing is ever appended
to val_loss. -/
def valLossListsStep (st : ValLossLists) (loss_item : ℚ) : ValLossLists :=
  { st with val_loss_items := st.val_loss_items ++ [loss_item] }

/-- Line 343: the validation loss reported for an epoch is np.mean of the
val_loss list as it stands after the batch loop. -/
def valLossReported (batchLossItems : List ℚ) : NpVal :=
  npMean (batchLossItems.foldl valLossListsStep valLossListsInit).val_loss

/-- Lines 187 and 347-348: best_val_loss starts at np.inf and is replaced by
val_loss exactly when val_loss < best_val_loss. -/
def bestValLossUpdate (best : NpVal) (val_loss : NpVal) : NpVal :=
  if npLt val_loss best then val_loss else best

/-- The best_val_loss tracker over a whole run, one val_loss per epoch. -/
def bestValLossAfter (epochs : List (List ℚ)) : NpVal :=
  epochs.foldl (fun best items => bestValLossUpdate best (valLossReported items)) .inf

lemma valLossLists_foldl_val_loss (l : List ℚ) (st : ValLossLists) :
    (l.foldl valLossListsStep st).val_loss = st.val_loss := by
  induction l generalizing st with
  | nil => rfl
  | cons a rest ih =>
    rw [List.foldl_cons, ih]
    rfl

/-- C10: after any epoch's validation batch loop the val_loss list being
averaged is still empty (the collected val_loss_items are never used for it),
so the reported validation loss is NaN, and the best_val_loss tracker still
holds its initial np.inf after every run. -/
theorem val_loss_empty_reported_nan_best_inf :
    (∀ batchLossItems : List ℚ,
      (batchLossItems.foldl valLossListsStep valLossListsInit).val_loss = []) ∧
    (∀ batchLossItems : List ℚ, valLossReported batchLossItems = .nan) ∧
    (∀ epochs : List (List ℚ), bestValLossAfter epochs = .inf) := by
  have h1 : ∀ batchLossItems : List ℚ,
      (batchLossItems.foldl valLossListsStep valLossListsInit).val_loss = [] :=
    fun l => valLossLists_foldl_val_loss l valLossListsInit
  have h2 : ∀ batchLossItems : List ℚ, valLossReported batchLossItems = .nan := by
    intro l
    rw [valLossReported, h1 l]
    rfl
  refine ⟨h1, h2, ?_⟩
  intro epochs
  rw [bestValLossAfter]
  induction epochs with
  | nil => rfl
  | cons e rest ih =>
    rw [List.foldl_cons, h2 e]
    have : bestValLossUpdate NpVal.inf NpVal.nan = NpVal.inf := rfl
    rw [this, ih]

end MaskTrain
